import Mathlib

/-!
Verification of the core pipeline of an AI document-analyzer service:
text chunking (`VectorDBService._chunk_text`), cosine-similarity ranking and
retrieval (`EmbeddingService._cosine_similarity`,
`EmbeddingService.retrieve_relevant_guidelines`), output-contract validation
(pydantic models `AnalysisResult` and `AnalyzeResponse`), and the question
answering short-circuit (`QAAgent.answer_question`).

Texts are embedded as `List Char` (Python strings are sequences of code
points, and `len`, slicing, `rfind` and `strip` act on those); Python ints
are embedded as `ℤ`; float vector entries as `ℚ` (every float is a rational,
and none of the verified paths depend on rounding); the norms and similarity
scores, which involve a square root, live in `ℝ`.
-/

/-! ### Python string primitives used by the chunker -/

/-- Python slice `s[i:j]` (step 1): negative indices count from the end,
out-of-range bounds are clamped, and an empty slice results when the
effective start is at or past the effective stop. -/
def pySubstr (s : List Char) (i j : ℤ) : List Char :=
  let n : ℤ := s.length
  let i' : ℤ := if i < 0 then max 0 (n + i) else min i n
  let j' : ℤ := if j < 0 then max 0 (n + j) else min j n
  (s.take j'.toNat).drop i'.toNat

/-- Python `s.rfind(sub)`: the largest index at which `sub` occurs in `s`,
or `-1` when it does not occur. -/
def pyRfind (s sub : List Char) : ℤ :=
  match ((List.range (s.length + 1)).filter
      (fun i => List.isPrefixOf sub (s.drop i))).getLast? with
  | some i => (i : ℤ)
  | none => -1

/-- The ASCII whitespace characters removed by Python `str.strip()`. -/
def isPySpace (c : Char) : Bool :=
  c == ' ' || c == '\t' || c == '\n' || c == '\x0d' || c == '\x0b' || c == '\x0c'

/-- Python `s.strip()`: remove leading and trailing whitespace. -/
def pyStrip (s : List Char) : List Char :=
  ((s.dropWhile isPySpace).reverse.dropWhile isPySpace).reverse

/-! ### The chunker (`VectorDBService._chunk_text`) -/

/-- The prioritized sentence-boundary markers searched by `_chunk_text`,
in the order the Python `for` loop tries them. -/
def sentenceSeps : List (List Char) :=
  [". ".data, ".\n".data, "! ".data, "!\n".data, "? ".data, "?\n".data]

/-- The cut position for the window starting at `start`: `start + chunk_size`,
unless that does not reach the end of the text and some boundary marker's
last occurrence in the window lies past the midpoint (`last_sentence >
chunk_size * 0.5`, which for integers is `2 * last_sentence > chunk_size`);
then the cut is just after that occurrence.  The first marker in priority
order that qualifies wins (the Python loop breaks). -/
def chunkEnd (text : List Char) (chunk_size : ℤ) (start : ℤ) : ℤ :=
  if start + chunk_size < (text.length : ℤ) then
    match sentenceSeps.find?
        (fun sep =>
          decide (2 * pyRfind (pySubstr text start (start + chunk_size)) sep > chunk_size)) with
    | some sep =>
      start + pyRfind (pySubstr text start (start + chunk_size)) sep + (sep.length : ℤ)
    | none => start + chunk_size
  else start + chunk_size

/-- One iteration of the `while start < len(text)` loop: the next value of
`start` (`end - overlap`) and the stripped chunk text of this window. -/
def chunkStep (text : List Char) (chunk_size overlap : ℤ) (start : ℤ) :
    ℤ × List Char :=
  (chunkEnd text chunk_size start - overlap,
   pyStrip (pySubstr text start (chunkEnd text chunk_size start)))

/-- The scan loop of `_chunk_text`, with explicit fuel because the Python
loop is not structurally terminating: `none` means the fuel ran out before
the loop condition `start < len(text)` became false. -/
def chunkLoop (text : List Char) (chunk_size overlap : ℤ) :
    ℕ → ℤ → List (List Char) → Option (List (List Char))
  | 0, _, _ => none
  | fuel + 1, start, acc =>
    if start < (text.length : ℤ) then
      chunkLoop text chunk_size overlap fuel (chunkStep text chunk_size overlap start).1
        (if (chunkStep text chunk_size overlap start).2 = [] then acc
         else acc ++ [(chunkStep text chunk_size overlap start).2])
    else some acc

/-- `VectorDBService._chunk_text(text, chunk_size, overlap)`: a text no longer
than `chunk_size` is returned as a single chunk; otherwise the windowed scan
runs (with fuel). -/
def chunk_text (text : List Char) (chunk_size overlap : ℤ) (fuel : ℕ) :
    Option (List (List Char)) :=
  if (text.length : ℤ) ≤ chunk_size then some [text]
  else chunkLoop text chunk_size overlap fuel 0 []

/-- The sequence of `(start_offset, end_offset)` windows the scan visits,
in order: a specification companion of `chunkLoop` that records the window
of each iteration instead of the chunk texts. -/
def chunkOffsets (text : List Char) (chunk_size overlap : ℤ) :
    ℕ → ℤ → List (ℤ × ℤ)
  | 0, _ => []
  | fuel + 1, start =>
    if start < (text.length : ℤ) then
      (start, chunkEnd text chunk_size start) ::
        chunkOffsets text chunk_size overlap fuel (chunkEnd text chunk_size start - overlap)
    else []

/-- The chunk text a window contributes: its slice of the text, stripped,
or nothing when stripping leaves it empty (such chunks are dropped). -/
def stripWindow (text : List Char) (p : ℤ × ℤ) : Option (List Char) :=
  if pyStrip (pySubstr text p.1 p.2) = [] then none
  else some (pyStrip (pySubstr text p.1 p.2))

/-! ### Ranking and retrieval (`EmbeddingService`) -/

/-- `np.dot` on two 1-d vectors: the sum of pointwise products. -/
def dot (a b : List ℚ) : ℚ := (List.zipWith (· * ·) a b).sum

/-- `np.linalg.norm(v)`: the Euclidean norm, the square root of the sum of
squares `dot v v`. -/
noncomputable def vecNorm (a : List ℚ) : ℝ := Real.sqrt ((dot a a : ℚ) : ℝ)

/-- `EmbeddingService._cosine_similarity(vec1, vec2)`: `0.0` when either norm
is zero (the division-by-zero guard), otherwise the normalized dot product. -/
noncomputable def cosine_similarity (a b : List ℚ) : ℝ :=
  if vecNorm a = 0 ∨ vecNorm b = 0 then 0
  else ((dot a b : ℚ) : ℝ) / (vecNorm a * vecNorm b)

/-- Python `enumerate` starting at `i`. -/
def enumFrom (i : ℕ) : List α → List (ℕ × α)
  | [] => []
  | x :: xs => (i, x) :: enumFrom (i + 1) xs

/-- The `similarities` list built by `retrieve_relevant_guidelines`: each
candidate's index paired with its cosine similarity to the query. -/
noncomputable def similarities (q : List ℚ) (cands : List (List ℚ)) :
    List (ℕ × ℝ) :=
  enumFrom 0 (cands.map (cosine_similarity q))

/-- Insert an element into a list already sorted by descending score, after
every element of score at least as large: the insertion step of a stable
descending sort, matching the semantics of Python
`list.sort(key=lambda x: x[1], reverse=True)` (stable, ties keep their
original relative order). -/
noncomputable def insertDesc (x : ℕ × ℝ) : List (ℕ × ℝ) → List (ℕ × ℝ)
  | [] => [x]
  | y :: ys => if y.2 < x.2 then x :: y :: ys else y :: insertDesc x ys

/-- Stable sort by descending score: Python
`similarities.sort(key=lambda x: x[1], reverse=True)`. -/
noncomputable def sortByScoreDesc (l : List (ℕ × ℝ)) : List (ℕ × ℝ) :=
  l.foldl (fun acc x => insertDesc x acc) []

/-- Python slice `l[:k]`: the first `k` elements for `k ≥ 0`; for `k < 0`,
everything but the last `min(-k, len l)` elements. -/
def pySliceTo (k : ℤ) (l : List α) : List α :=
  if 0 ≤ k then l.take k.toNat else l.take (l.length - (-k).toNat)

/-- The ranking core of `EmbeddingService.retrieve_relevant_guidelines`:
score every candidate against the query, sort by descending similarity
(stable), and keep `similarities[:top_k]`. -/
noncomputable def rankCandidates (q : List ℚ) (cands : List (List ℚ))
    (top_k : ℤ) : List (ℕ × ℝ) :=
  pySliceTo top_k (sortByScoreDesc (similarities q cands))

/-- `EmbeddingService.retrieve_relevant_guidelines`: the guideline texts at
the ranked indices (`[self.guidelines[idx] for idx in top_indices]`), for a
corpus of `(text, embedding)` pairs and an already-embedded query. -/
noncomputable def retrieve_relevant_guidelines (q : List ℚ)
    (guidelines : List (List Char × List ℚ)) (top_k : ℤ) : List (List Char) :=
  (rankCandidates q (guidelines.map Prod.snd) top_k).map
    (fun p => ((guidelines.map Prod.fst).getD p.1 []))

/-! ### Output-contract validation (pydantic schemas `AnalysisResult`,
`AnalyzeResponse`)

Pydantic v1 validates fields in declaration order (`summary`,
`completeness_status`, `missing_points`, `evidence`, `confidence`); a field's
own presence/shape checks run before its constraint checks, and the
`@validator('missing_points')` cross-field rule runs right after the
`missing_points` shape check, seeing in `values` only the fields already
validated.  The spec abstracts the resulting error list to a single
rejection reason, the first failure in that order. -/

/-- An untyped Python value handed to the validator (the parsed LLM JSON).
The verified claims only exercise well-shaped or out-of-range fields, so
pydantic v1 primitive coercions (such as int-to-str) are not modelled. -/
inductive PyVal where
  | vstr (s : List Char)
  | vlist (xs : List PyVal)
  | vnum (q : ℚ)
  | vbool (b : Bool)
  | vnone

/-- The rejection taxonomy of the output validator. -/
inductive RejectionReason where
  | schema_violation (field : List Char)
  | range_violation (field : List Char)
  | invalid_enum
  | inconsistent_fields
deriving DecidableEq

/-- A raw key-value structure for `AnalysisResult`: each field either absent
(`none`) or some untyped value. -/
structure RawInput where
  summary : Option PyVal
  completeness_status : Option PyVal
  missing_points : Option PyVal
  evidence : Option PyVal
  confidence : Option PyVal

/-- A validated `AnalysisResult` (the accepted, trusted output). -/
structure AnalysisResult where
  summary : List Char
  completeness_status : List Char
  missing_points : List (List Char)
  evidence : List (List Char)
  confidence : ℚ
deriving DecidableEq

/-- The value of a `str` field, when the value is a string. -/
def asStr : PyVal → Option (List Char)
  | .vstr s => some s
  | _ => none

/-- The value of a `List[str]` field, when the value is a list of strings. -/
def asStrList : PyVal → Option (List (List Char))
  | .vlist xs => xs.mapM asStr
  | _ => none

/-- The value of a `float` field, when the value is a number. -/
def asNum : PyVal → Option ℚ
  | .vnum q => some q
  | _ => none

/-- The closed set of the `completeness_status` `Literal`. -/
def validStatuses : List (List Char) :=
  ["complete".data, "partial".data, "unknown".data]

/-- Field 1, `summary`: present, a string, of length 10..500 (pydantic
`min_length=10, max_length=500`). -/
def checkSummary (raw : RawInput) : Except RejectionReason (List Char) :=
  match raw.summary with
  | some (.vstr s) =>
    if s.length < 10 ∨ 500 < s.length then .error (.range_violation "summary".data)
    else .ok s
  | _ => .error (.schema_violation "summary".data)

/-- Field 2, `completeness_status`: present, a string, in the closed
`Literal` set. -/
def checkStatus (raw : RawInput) : Except RejectionReason (List Char) :=
  match raw.completeness_status with
  | some (.vstr st) => if st ∈ validStatuses then .ok st else .error .invalid_enum
  | _ => .error (.schema_violation "completeness_status".data)

/-- Field 3, `missing_points`: optional with default `[]`, a list of
strings; then the cross-field rule `validate_missing_points_with_status`
(status `complete` forbids missing points), which sees the already-validated
`completeness_status` and runs before the remaining fields are validated.
(The default `[]` never violates the rule, matching pydantic, where
validators do not run on applied defaults.) -/
def checkMissingPoints (st : List Char) (raw : RawInput) :
    Except RejectionReason (List (List Char)) :=
  match raw.missing_points with
  | none => .ok []
  | some v =>
    match asStrList v with
    | none => .error (.schema_violation "missing_points".data)
    | some mp =>
      if st = "complete".data ∧ mp ≠ [] then .error .inconsistent_fields
      else .ok mp

/-- Field 4, `evidence`: present, a list of strings, non-empty
(`min_items=1`). -/
def checkEvidence (raw : RawInput) : Except RejectionReason (List (List Char)) :=
  match raw.evidence with
  | none => .error (.schema_violation "evidence".data)
  | some v =>
    match asStrList v with
    | none => .error (.schema_violation "evidence".data)
    | some ev =>
      if ev = [] then .error (.range_violation "evidence".data) else .ok ev

/-- Field 5, `confidence`: present, a number, within `[0, 1]`
(`ge=0.0, le=1.0`). -/
def checkConfidence (raw : RawInput) : Except RejectionReason ℚ :=
  match raw.confidence with
  | some (.vnum c) =>
    if c < 0 ∨ 1 < c then .error (.range_violation "confidence".data) else .ok c
  | _ => .error (.schema_violation "confidence".data)

/-- Validation of a raw structure against the `AnalysisResult` schema: the
per-field checks in pydantic's field declaration order, first failure wins
(pydantic v1 reports its collected errors in this order, and the spec
abstracts the rejection to the single first reason). -/
def validate (raw : RawInput) : Except RejectionReason AnalysisResult :=
  match checkSummary raw with
  | .error e => .error e
  | .ok s =>
    match checkStatus raw with
    | .error e => .error e
    | .ok st =>
      match checkMissingPoints st raw with
      | .error e => .error e
      | .ok mp =>
        match checkEvidence raw with
        | .error e => .error e
        | .ok ev =>
          match checkConfidence raw with
          | .error e => .error e
          | .ok c => .ok ⟨s, st, mp, ev, c⟩

/-- The `AnalyzeResponse` wrapper returned by the analyze endpoint. -/
structure AnalyzeResponse where
  success : Bool
  result : Option AnalysisResult
  error : Option (List Char)
deriving DecidableEq

/-- `AnalyzeResponse.validate_result_with_success`: the `result` field is
rejected when `success` is true but `result` is `None`. -/
def validate_result_with_success (success : Bool) (v : Option AnalysisResult) :
    Except (List Char) (Option AnalysisResult) :=
  if success = true ∧ v = none then
    Except.error "Result must be provided when success is True".data
  else Except.ok v

/-- Construction of an `AnalyzeResponse`.  The outer `Option` on `result`
distinguishes an omitted field (`none`) from an explicitly passed value
(`some v`, where `v` may itself be `None`): pydantic runs the
`@validator('result')` only when the field is provided — a validator
without `always=True` is skipped when the field is omitted and its default
(`None`) is applied. -/
def AnalyzeResponse.construct (success : Bool)
    (result : Option (Option AnalysisResult)) (error : Option (List Char)) :
    Except (List Char) AnalyzeResponse :=
  match result with
  | none => .ok ⟨success, none, error⟩
  | some v =>
    match validate_result_with_success success v with
    | .error e => .error e
    | .ok r => .ok ⟨success, r, error⟩

/-- Decidable equality of validation outcomes (used to evaluate the
validator on concrete inputs). -/
instance : DecidableEq (Except RejectionReason AnalysisResult) := fun a b =>
  match a, b with
  | .error e1, .error e2 =>
    if h : e1 = e2 then isTrue (by rw [h]) else isFalse (by simp [h])
  | .ok r1, .ok r2 =>
    if h : r1 = r2 then isTrue (by rw [h]) else isFalse (by simp [h])
  | .error _, .ok _ => isFalse (by simp)
  | .ok _, .error _ => isFalse (by simp)

/-! ### Question answering (`QAAgent.answer_question`)

The retrieval collaborator's output (`self.vector_db.search(...)`) and the
generator (`self.llm_service.generate_response`) are external collaborators,
passed in as the already-computed search results and an opaque
prompt-to-text function. -/

/-- One search result as returned by the vector store: the chunk text and
the metadata fields the agent reads. -/
structure SearchResult where
  text : List Char
  chunk_index : ℕ
  total_chunks : ℕ
  filename : List Char
  document_id : List Char

/-- One citation entry of the answer (`sources` list). -/
structure Source where
  source_number : ℕ
  text : List Char
  document : List Char
  document_id : List Char

/-- The value returned by `answer_question`: answer text plus citations. -/
structure QAAnswer where
  answer : List Char
  sources : List Source

/-- The fixed no-documents answer text. -/
def noDocumentsAnswer : List Char :=
  "I don't have any documents to answer this question. Please upload documents first.".data

/-- Decimal digits of a natural number, as Python `str(n)`. -/
def natChars (n : ℕ) : List Char := Nat.toDigits 10 n

/-- The system instructions block of `QAAgent._build_qa_prompt`. -/
def qaSystemInstructions : List Char :=
  ("You are a helpful assistant that answers questions based ONLY on the provided context.\n\nRules:\n1. Answer the question using ONLY information from the context provided\n2. If the context doesn't contain enough information, say \"I don't have enough information to answer that question.\"\n3. Be concise and direct in your answer\n4. Cite source numbers when referencing specific information (e.g., \"According to Source 1...\")\n5. Do not make assumptions or add information not in the context\n6. If multiple sources provide the same information, mention all relevant sources").data

/-- `QAAgent._build_qa_prompt(question, context)`. -/
def build_qa_prompt (question context : List Char) : List Char :=
  qaSystemInstructions ++ "\n\n".data ++
    "Context from documents:\n\n".data ++ context ++
    "\n\nQuestion: ".data ++ question ++ "\n\nAnswer:".data

/-- The citation entry built for the `i`-th (1-based) search result. -/
def mkSource (p : ℕ × SearchResult) : Source :=
  { source_number := p.1
    text := p.2.text
    document := p.2.filename ++ " (Chunk ".data ++ natChars (p.2.chunk_index + 1)
      ++ "/".data ++ natChars p.2.total_chunks ++ ")".data
    document_id := p.2.document_id }

/-- `QAAgent.answer_question` after the retrieval call: when the search
returned no results, the fixed no-documents answer with no sources and no
generator call; otherwise the prompt is assembled from the numbered results
and the generator's response is returned (stripped) with the citations. -/
def answer_question (question : List Char) (search_results : List SearchResult)
    (generate : List Char → List Char) : QAAnswer :=
  if search_results.isEmpty then
    { answer := noDocumentsAnswer, sources := [] }
  else
    let numbered := enumFrom 1 search_results
    let context_parts := numbered.map
      (fun p => "[Source ".data ++ natChars p.1 ++ "]: ".data ++ p.2.text)
    let sources := numbered.map mkSource
    let context := List.intercalate "\n\n".data context_parts
    let prompt := build_qa_prompt question context
    { answer := pyStrip (generate prompt), sources := sources }

/-! ### Helper lemmas -/

lemma dot_self_nonneg (a : List ℚ) : 0 ≤ dot a a := by
  induction a with
  | nil => simp [dot]
  | cons x xs ih =>
    have h : dot (x :: xs) (x :: xs) = x * x + dot xs xs := by
      simp [dot, List.zipWith]
    rw [h]
    exact add_nonneg (mul_self_nonneg x) ih

lemma norm_eq_zero_iff (a : List ℚ) : vecNorm a = 0 ↔ dot a a = 0 := by
  unfold vecNorm
  rw [Real.sqrt_eq_zero (by exact_mod_cast dot_self_nonneg a)]
  norm_cast

lemma norm_single_zero : vecNorm [(0 : ℚ)] = 0 := by
  rw [norm_eq_zero_iff]
  simp [dot]

lemma norm_single_one : vecNorm [(1 : ℚ)] = 1 := by
  unfold vecNorm
  rw [show dot [(1 : ℚ)] [(1 : ℚ)] = 1 from by simp [dot]]
  simp [Real.sqrt_one]

/-- Claim C3: the cosine similarity is a total function that returns `0.0`
whenever either operand has zero norm, and otherwise the normalized dot
product `dot(a,b) / (norm a * norm b)`; moreover a nonzero vector has
similarity `1` with itself.  (Totality is inherent: `cosine_similarity` is a
Lean function, so the guarded division can never raise.) -/
theorem cosine_similarity_guard (a b : List ℚ) :
    (vecNorm a = 0 ∨ vecNorm b = 0 → cosine_similarity a b = 0) ∧
    (vecNorm a ≠ 0 → vecNorm b ≠ 0 →
      cosine_similarity a b = ((dot a b : ℚ) : ℝ) / (vecNorm a * vecNorm b)) ∧
    (vecNorm a ≠ 0 → cosine_similarity a a = 1) := by
  refine ⟨fun h => by unfold cosine_similarity; rw [if_pos h],
    fun h1 h2 => by unfold cosine_similarity; rw [if_neg (by tauto)],
    fun h => ?_⟩
  unfold cosine_similarity
  rw [if_neg (by tauto)]
  unfold vecNorm
  rw [Real.mul_self_sqrt (by exact_mod_cast dot_self_nonneg a)]
  apply div_self
  intro h0
  exact h ((norm_eq_zero_iff a).mpr (by exact_mod_cast h0))

/-- Witness for C3 at the concrete vectors `[1]` and `[0]`. -/
theorem cosine_similarity_guard_witness :
    cosine_similarity [(1 : ℚ)] [(0 : ℚ)] = 0 ∧
    cosine_similarity [(1 : ℚ)] [(1 : ℚ)] =
      ((dot [(1 : ℚ)] [(1 : ℚ)] : ℚ) : ℝ) / (vecNorm [(1 : ℚ)] * vecNorm [(1 : ℚ)]) ∧
    cosine_similarity [(1 : ℚ)] [(1 : ℚ)] = 1 :=
  ⟨(cosine_similarity_guard [(1 : ℚ)] [(0 : ℚ)]).1 (Or.inr norm_single_zero),
   (cosine_similarity_guard [(1 : ℚ)] [(1 : ℚ)]).2.1
     (by rw [norm_single_one]; exact one_ne_zero)
     (by rw [norm_single_one]; exact one_ne_zero),
   (cosine_similarity_guard [(1 : ℚ)] [(0 : ℚ)]).2.2
     (by rw [norm_single_one]; exact one_ne_zero)⟩

/-- Claim C4: whenever the text is no longer than `target_size` (and the
preconditions `target_size > overlap >= 0` hold), `chunk` returns exactly
one chunk, the whole input text. -/
theorem chunk_text_short_single (text : List Char) (chunk_size overlap : ℤ)
    (fuel : ℕ) (hov : overlap < chunk_size) (hov0 : 0 ≤ overlap)
    (hlen : (text.length : ℤ) ≤ chunk_size) :
    chunk_text text chunk_size overlap fuel = some [text] := by
  unfold chunk_text
  rw [if_pos hlen]

/-- Witness for C4 at a concrete short text. -/
theorem chunk_text_short_single_witness :
    (3 : ℤ) < 10 ∧ (0 : ℤ) ≤ 3 ∧ (("hello".data.length : ℤ) ≤ 10) ∧
    chunk_text "hello".data 10 3 7 = some ["hello".data] :=
  ⟨by decide, by decide, by decide,
   chunk_text_short_single "hello".data 10 3 7 (by decide) (by decide) (by decide)⟩

/-- Claim C9: when retrieval returns zero chunks, `answer_question` returns
the fixed no-documents answer with an empty citation list, and the result
does not depend on the generator collaborator (it is never called). -/
theorem answer_question_no_results (question : List Char)
    (generate : List Char → List Char) :
    answer_question question [] generate =
      ⟨noDocumentsAnswer, []⟩ ∧
    ∀ generate2 : List Char → List Char,
      answer_question question [] generate = answer_question question [] generate2 :=
  ⟨rfl, fun _ => rfl⟩

/-- The accepted example result of the spec (used to instantiate C10). -/
def sampleResult : AnalysisResult :=
  ⟨"Valid summary text.".data, "partial".data, ["Conclusion".data],
   ["quote A".data], 1⟩

/-- Counterexample to C10 as stated: constructing `AnalyzeResponse` with
`success = True` and the `result` field omitted succeeds — pydantic applies
the default `None` and skips the `@validator('result')` (it has no
`always=True`) — so a successfully constructed response with
`success = true` and `result = None` exists in the program. -/
theorem analyze_response_omitted_result_counterexample :
    AnalyzeResponse.construct true none none = .ok ⟨true, none, none⟩ ∧
    (⟨true, none, none⟩ : AnalyzeResponse).success = true ∧
    (⟨true, none, none⟩ : AnalyzeResponse).result = none :=
  ⟨rfl, rfl, rfl⟩

/-- Claim C10 (amended): whenever the `result` field is explicitly provided,
a successfully constructed `AnalyzeResponse` with `success = true` carries a
non-null `result` (explicit construction with success True and result None
fails validation).  Only omitting the field — which the analyze route never
does — bypasses the validator via the applied default. -/
theorem analyze_response_success_has_result (success : Bool)
    (v : Option AnalysisResult) (error : Option (List Char))
    (resp : AnalyzeResponse)
    (hok : AnalyzeResponse.construct success (some v) error = .ok resp)
    (hs : resp.success = true) : resp.result ≠ none := by
  have hok' : (match validate_result_with_success success v with
      | .error e => Except.error e
      | .ok r => Except.ok (⟨success, r, error⟩ : AnalyzeResponse)) = .ok resp := hok
  unfold validate_result_with_success at hok'
  by_cases hc : success = true ∧ v = none
  · rw [if_pos hc] at hok'
    simp at hok'
  · rw [if_neg hc] at hok'
    simp only [Except.ok.injEq] at hok'
    intro hnone
    apply hc
    rw [← hok'] at hs hnone
    exact ⟨hs, hnone⟩

/-- Witness for the amended C10 at a concrete explicit construction. -/
theorem analyze_response_success_has_result_witness :
    AnalyzeResponse.construct true (some (some sampleResult)) none =
      .ok ⟨true, some sampleResult, none⟩ ∧
    (⟨true, some sampleResult, none⟩ : AnalyzeResponse).result ≠ none :=
  ⟨rfl, analyze_response_success_has_result true (some sampleResult) none _ rfl rfl⟩

/-! ### Validator ordering claims (C1, C6) -/

/-- The spec's C1 example input: `{summary:"ok short",
completeness_status:"complete", missing_points:["x"], evidence:["e"],
confidence:0.5}`.  Its summary has only 8 characters. -/
def specC1Example : RawInput :=
  ⟨some (.vstr "ok short".data), some (.vstr "complete".data),
   some (.vlist [.vstr "x".data]), some (.vlist [.vstr "e".data]),
   some (.vnum (1 / 2))⟩

/-- The C1 example with a 10-character summary (the smallest change that
puts every field individually in range). -/
def specC1ExampleFixed : RawInput :=
  ⟨some (.vstr "ok short!!".data), some (.vstr "complete".data),
   some (.vlist [.vstr "x".data]), some (.vlist [.vstr "e".data]),
   some (.vnum (1 / 2))⟩

/-- Counterexample to C1 as stated: the spec's example input is rejected,
but with the `summary` range violation (its summary has 8 < 10 characters,
and the `summary` checks run before the cross-field rule), not with
`inconsistent_fields`. -/
theorem specC1Example_rejected_for_summary :
    validate specC1Example = .error (.range_violation "summary".data) ∧
    validate specC1Example ≠ .error .inconsistent_fields ∧
    ("ok short".data).length = 8 :=
  ⟨rfl, by decide, rfl⟩

/-- Claim C1 (amended): for every input whose `summary`,
`completeness_status` and `missing_points` fields are individually
well-typed and in range (and whatever the remaining fields hold — here they
are also assumed well-typed and in range, as the claim does), if
`completeness_status` is `complete` and `missing_points` is non-empty then
`validate` rejects with `inconsistent_fields`; the spec's example satisfies
this only after its 8-character summary is lengthened to at least 10
characters. -/
theorem validate_complete_nonempty_missing_inconsistent (raw : RawInput)
    (s st : List Char) (mpv : PyVal) (mp : List (List Char)) (evv : PyVal)
    (ev : List (List Char)) (cv : PyVal) (c : ℚ)
    (hsum : raw.summary = some (.vstr s))
    (hslen : 10 ≤ s.length) (hslen2 : s.length ≤ 500)
    (hst : raw.completeness_status = some (.vstr st))
    (hstv : st = "complete".data)
    (hmp : raw.missing_points = some mpv) (hmpl : asStrList mpv = some mp)
    (hmpne : mp ≠ [])
    (hev : raw.evidence = some evv) (hevl : asStrList evv = some ev)
    (hevne : ev ≠ [])
    (hcf : raw.confidence = some cv) (hcv : asNum cv = some c)
    (hc0 : 0 ≤ c) (hc1 : c ≤ 1) :
    validate raw = .error .inconsistent_fields := by
  have h1 : checkSummary raw = .ok s := by
    simp only [checkSummary, hsum]
    rw [if_neg (by omega)]
  have h2 : checkStatus raw = .ok st := by
    simp only [checkStatus, hst, hstv]
    rw [if_pos (by decide)]
  have h3 : checkMissingPoints st raw = .error .inconsistent_fields := by
    simp only [checkMissingPoints, hmp, hmpl]
    rw [if_pos ⟨hstv, hmpne⟩]
  simp only [validate, h1, h2, h3]

/-- Witness for the amended C1 at the corrected example input. -/
theorem validate_complete_nonempty_missing_inconsistent_witness :
    validate specC1ExampleFixed = .error .inconsistent_fields :=
  validate_complete_nonempty_missing_inconsistent specC1ExampleFixed
    "ok short!!".data "complete".data (.vlist [.vstr "x".data]) ["x".data]
    (.vlist [.vstr "e".data]) ["e".data] (.vnum (1 / 2)) (1 / 2)
    rfl (by decide) (by decide) rfl rfl rfl rfl (by decide) rfl rfl
    (by decide) rfl rfl (by norm_num) (by norm_num)

/-- An input with BOTH an out-of-range later field (`confidence = 1.5`) and
a cross-field inconsistency (`complete` with non-empty `missing_points`). -/
def crossFieldVsConfidence : RawInput :=
  ⟨some (.vstr "A valid summary text.".data), some (.vstr "complete".data),
   some (.vlist [.vstr "x".data]), some (.vlist [.vstr "e".data]),
   some (.vnum (3 / 2))⟩

/-- Counterexample to C6 as stated: the cross-field rule is attached to the
third field (`missing_points`), so it fires before the `confidence` range
check of the fifth field.  This input has `confidence = 1.5`, out of range,
together with a cross-field inconsistency, yet `validate` rejects it with
`inconsistent_fields` — not with the per-field range violation, contradicting
the claim that per-field violations always win over the cross-field rule. -/
theorem crossFieldVsConfidence_rejected_inconsistent :
    validate crossFieldVsConfidence = .error .inconsistent_fields ∧
    crossFieldVsConfidence.confidence = some (.vnum (3 / 2)) ∧
    ¬ ((3 : ℚ) / 2 ≤ 1) :=
  ⟨rfl, rfl, by norm_num⟩

/-- Claim C6 (amended): `validate` applies its checks per field in pydantic's
declaration order (`summary`, `completeness_status`, `missing_points`,
`evidence`, `confidence`), each field's presence/shape check before its own
range or enumeration check, and the first failing check determines the
rejection reason.  The cross-field rule is attached to `missing_points`: it
runs after `summary` and `completeness_status` are validated but before
`evidence` and `confidence`.  Hence (a) an input whose `summary` is
out of range is rejected with the `summary` range violation no matter what
the later fields hold, while (b) an input whose first three fields are valid
but inconsistent is rejected with `inconsistent_fields` no matter what
`evidence` and `confidence` hold. -/
theorem validate_field_order (raw : RawInput) :
    (∀ s : List Char, raw.summary = some (.vstr s) →
      (s.length < 10 ∨ 500 < s.length) →
      validate raw = .error (.range_violation "summary".data)) ∧
    (∀ (s : List Char) (mpv : PyVal) (mp : List (List Char)),
      raw.summary = some (.vstr s) → 10 ≤ s.length → s.length ≤ 500 →
      raw.completeness_status = some (.vstr "complete".data) →
      raw.missing_points = some mpv → asStrList mpv = some mp → mp ≠ [] →
      validate raw = .error .inconsistent_fields) := by
  constructor
  · intro s hsum hrange
    have h1 : checkSummary raw = .error (.range_violation "summary".data) := by
      simp only [checkSummary, hsum]
      rw [if_pos hrange]
    simp only [validate, h1]
  · intro s mpv mp hsum hlo hhi hst hmp hmpl hmpne
    have h1 : checkSummary raw = .ok s := by
      simp only [checkSummary, hsum]
      rw [if_neg (by omega)]
    have h2 : checkStatus raw = .ok "complete".data := by
      simp only [checkStatus, hst]
      rw [if_pos (by decide)]
    have h3 : checkMissingPoints "complete".data raw = .error .inconsistent_fields := by
      simp [checkMissingPoints, hmp, hmpl, hmpne]
    simp only [validate, h1, h2, h3]

/-- Witness for the amended C6: part (a) at an input whose bad summary beats
its cross-field inconsistency, part (b) at the input whose cross-field
inconsistency beats its bad confidence. -/
theorem validate_field_order_witness :
    validate specC1Example = .error (.range_violation "summary".data) ∧
    validate crossFieldVsConfidence = .error .inconsistent_fields :=
  ⟨(validate_field_order specC1Example).1 "ok short".data rfl (by decide),
   (validate_field_order crossFieldVsConfidence).2 "A valid summary text.".data
     (.vlist [.vstr "x".data]) ["x".data] rfl (by decide) (by decide) rfl rfl
     rfl (by decide)⟩

/-! ### Chunker progress and termination (C5, C8) -/

lemma sentenceSeps_length : ∀ sep ∈ sentenceSeps, (sep.length : ℤ) = 2 := by
  decide

/-- Under `overlap < chunk_size` and `2 * overlap ≤ chunk_size + 4`, every
cut lands strictly more than `overlap` past the window start: a raw cut
advances by `chunk_size > overlap`, and a boundary cut advances by
`last_sentence + 2` with `2 * last_sentence > chunk_size ≥ 2 * overlap - 4`. -/
lemma chunkEnd_progress (text : List Char) (chunk_size overlap start : ℤ)
    (h1 : overlap < chunk_size) (h3 : 2 * overlap ≤ chunk_size + 4) :
    start + overlap < chunkEnd text chunk_size start := by
  unfold chunkEnd
  split
  · split
    next sep hfind =>
      have hp := List.find?_some hfind
      simp only [decide_eq_true_eq] at hp
      have hlen : (sep.length : ℤ) = 2 :=
        sentenceSeps_length sep (List.mem_of_find?_eq_some hfind)
      omega
    next hfind => omega
  · omega

/-- With strict progress, fuel exceeding the remaining text length is enough
for the scan loop to reach its exit condition. -/
lemma chunkLoop_isSome (text : List Char) (chunk_size overlap : ℤ)
    (h1 : overlap < chunk_size) (h2 : 0 ≤ overlap)
    (h3 : 2 * overlap ≤ chunk_size + 4) :
    ∀ (fuel : ℕ) (start : ℤ) (acc : List (List Char)),
      (text.length : ℤ) - start < fuel → 1 ≤ fuel →
      (chunkLoop text chunk_size overlap fuel start acc).isSome := by
  intro fuel
  induction fuel with
  | zero => intro start acc hf h1f; omega
  | succ f ih =>
    intro start acc hf _
    unfold chunkLoop
    by_cases hs : start < (text.length : ℤ)
    · rw [if_pos hs]
      have hprog := chunkEnd_progress text chunk_size overlap start h1 h3
      have hstep : (chunkStep text chunk_size overlap start).1 =
          chunkEnd text chunk_size start - overlap := rfl
      apply ih
      · omega
      · omega
    · rw [if_neg hs]
      simp

/-- Claim C5 (amended): with the additional precondition
`2 * overlap ≤ chunk_size + 4` (satisfied by the defaults 1000/100), every
iteration of the scan advances strictly — `end_offset > start_offset` and
the next start is strictly greater than the previous start — and the loop
therefore returns after at most `len(text)` iterations. -/
theorem chunk_scan_progress_terminates (text : List Char)
    (chunk_size overlap : ℤ) (h1 : overlap < chunk_size) (h2 : 0 ≤ overlap)
    (h3 : 2 * overlap ≤ chunk_size + 4) :
    (∀ start : ℤ, start < chunkEnd text chunk_size start ∧
      start < (chunkStep text chunk_size overlap start).1) ∧
    ∀ fuel : ℕ, (text.length : ℤ) < (fuel : ℤ) →
      (chunk_text text chunk_size overlap fuel).isSome := by
  constructor
  · intro start
    have hprog := chunkEnd_progress text chunk_size overlap start h1 h3
    have hstep : (chunkStep text chunk_size overlap start).1 =
        chunkEnd text chunk_size start - overlap := rfl
    constructor
    · omega
    · omega
  · intro fuel hf
    unfold chunk_text
    by_cases hlen : (text.length : ℤ) ≤ chunk_size
    · rw [if_pos hlen]; simp
    · rw [if_neg hlen]
      apply chunkLoop_isSome text chunk_size overlap h1 h2 h3
      · omega
      · omega

/-- Witness for the amended C5 at a concrete text and parameters. -/
theorem chunk_scan_progress_terminates_witness :
    (1 : ℤ) < 4 ∧ (0 : ℤ) ≤ 1 ∧ (2 * 1 : ℤ) ≤ 4 + 4 ∧
    (0 : ℤ) < chunkEnd "hello world.".data 4 0 ∧
    (chunk_text "hello world.".data 4 1 13).isSome :=
  ⟨by decide, by decide, by decide,
   ((chunk_scan_progress_terminates "hello world.".data 4 1
      (by decide) (by decide) (by decide)).1 0).1,
   (chunk_scan_progress_terminates "hello world.".data 4 1
      (by decide) (by decide) (by decide)).2 13 (by decide)⟩

/-- A text on which the scan never terminates with `chunk_size = 10`,
`overlap = 9` (which satisfy the claimed precondition
`target_size > overlap >= 0`). -/
def nonTerminatingText : List Char := "aaaaaa. aaaaaa. aaaa".data

/-- Counterexample to C5 as stated: with `chunk_size = 10 > overlap = 9 >= 0`
and this 20-character text, the first iteration cuts at the sentence
boundary (`end_offset = 8`) and the next start is `8 - 9 = -1`, NOT strictly
greater than the previous start `0`; the following iteration takes the start
back to `0` (its window `text[-1:9]` is empty by Python negative-index
slicing), so the scan cycles between starts `0` and `-1` forever — here it
still has not returned after 100 iterations. -/
theorem chunk_scan_no_progress_counterexample :
    (9 : ℤ) < 10 ∧ (0 : ℤ) ≤ 9 ∧
    (10 : ℤ) < (nonTerminatingText.length : ℤ) ∧
    (chunkStep nonTerminatingText 10 9 0).1 = -1 ∧
    (chunkStep nonTerminatingText 10 9 (-1)).1 = 0 ∧
    chunk_text nonTerminatingText 10 9 100 = none := by
  decide

/-- The chunk texts returned by the scan loop are exactly the stripped
window slices of the visited offsets, with empty stripped windows dropped. -/
lemma chunkLoop_eq_offsets (text : List Char) (chunk_size overlap : ℤ) :
    ∀ (fuel : ℕ) (start : ℤ) (acc res : List (List Char)),
      chunkLoop text chunk_size overlap fuel start acc = some res →
      res = acc ++ (chunkOffsets text chunk_size overlap fuel start).filterMap
        (stripWindow text) := by
  intro fuel
  induction fuel with
  | zero => intro start acc res h; simp [chunkLoop] at h
  | succ f ih =>
    intro start acc res h
    unfold chunkLoop at h
    unfold chunkOffsets
    by_cases hs : start < (text.length : ℤ)
    · rw [if_pos hs] at h
      rw [if_pos hs]
      have hres := ih _ _ _ h
      rw [hres]
      simp only [chunkStep, stripWindow, List.filterMap_cons]
      by_cases hc : pyStrip (pySubstr text start (chunkEnd text chunk_size start)) = []
      · simp [hc]
      · simp [hc]
    · rw [if_neg hs] at h
      rw [if_neg hs]
      simp only [Option.some.injEq] at h
      simp [← h]

/-- The head of a non-empty offsets trace starting at `s` is the window
`(s, chunkEnd s)`. -/
lemma chunkOffsets_head (text : List Char) (chunk_size overlap : ℤ) :
    ∀ (fuel : ℕ) (s : ℤ) (p : ℤ × ℤ),
      (chunkOffsets text chunk_size overlap fuel s).head? = some p →
      p = (s, chunkEnd text chunk_size s) := by
  intro fuel s p h
  cases fuel with
  | zero => simp [chunkOffsets] at h
  | succ g =>
    unfold chunkOffsets at h
    by_cases hs : s < (text.length : ℤ)
    · rw [if_pos hs] at h
      simp only [List.head?_cons, Option.some.injEq] at h
      exact h.symm
    · rw [if_neg hs] at h
      simp at h

/-- Consecutive windows of the offsets trace: the next window starts exactly
`overlap` before the previous end, and ends strictly after it. -/
lemma chunkOffsets_chain (text : List Char) (chunk_size overlap : ℤ)
    (h1 : overlap < chunk_size) (h3 : 2 * overlap ≤ chunk_size + 4) :
    ∀ (fuel : ℕ) (start : ℤ),
      List.Chain' (fun p q : ℤ × ℤ => q.1 = p.2 - overlap ∧ p.2 < q.2)
        (chunkOffsets text chunk_size overlap fuel start) := by
  intro fuel
  induction fuel with
  | zero => intro start; simp [chunkOffsets]
  | succ f ih =>
    intro start
    unfold chunkOffsets
    by_cases hs : start < (text.length : ℤ)
    · rw [if_pos hs]
      rw [List.chain'_cons']
      refine ⟨?_, ih _⟩
      intro q hq
      rw [Option.mem_def] at hq
      have hq' := chunkOffsets_head text chunk_size overlap f _ q hq
      subst hq'
      refine ⟨rfl, ?_⟩
      have := chunkEnd_progress text chunk_size overlap
        (chunkEnd text chunk_size start - overlap) h1 h3
      omega
    · rw [if_neg hs]
      simp

/-- Claim C8 (amended): consecutive scan windows overlap in exactly the
`overlap` character positions before the previous cut — the next window
starts at `end_offset - overlap`, and (given `2 * overlap ≤ chunk_size + 4`)
ends strictly later than the previous window — and the returned chunks are
the whitespace-stripped window slices (empty ones dropped).  The shared
window region therefore need NOT survive in the returned chunk texts: it is
removed whenever stripping trims it away. -/
theorem chunk_windows_overlap (text : List Char) (chunk_size overlap : ℤ)
    (h0 : 0 < overlap) (h1 : overlap < chunk_size)
    (h3 : 2 * overlap ≤ chunk_size + 4) :
    (∀ (fuel : ℕ) (start : ℤ),
      List.Chain' (fun p q : ℤ × ℤ => q.1 = p.2 - overlap ∧ p.2 < q.2)
        (chunkOffsets text chunk_size overlap fuel start)) ∧
    ∀ (fuel : ℕ) (res : List (List Char)),
      chunk_text text chunk_size overlap fuel = some res →
      chunk_size < (text.length : ℤ) →
      res = (chunkOffsets text chunk_size overlap fuel 0).filterMap
        (stripWindow text) := by
  refine ⟨chunkOffsets_chain text chunk_size overlap h1 h3, ?_⟩
  intro fuel res hres hlen
  unfold chunk_text at hres
  rw [if_neg (by omega)] at hres
  have h := chunkLoop_eq_offsets text chunk_size overlap fuel 0 [] res hres
  simpa using h

/-- Witness for the amended C8 at a concrete text: windows
`[(0,6),(4,10),(8,14),(12,18)]` with pairwise overlap 2, and the returned
chunks are their stripped slices. -/
theorem chunk_windows_overlap_witness :
    (0 : ℤ) < 2 ∧ (2 : ℤ) < 6 ∧ (2 * 2 : ℤ) ≤ 6 + 4 ∧
    List.Chain' (fun p q : ℤ × ℤ => q.1 = p.2 - 2 ∧ p.2 < q.2)
      (chunkOffsets "aaaa. bbbb. cc".data 6 2 5 0) ∧
    ["aaaa.".data, ". bbbb".data, "bb. cc".data, "cc".data] =
      (chunkOffsets "aaaa. bbbb. cc".data 6 2 5 0).filterMap
        (stripWindow "aaaa. bbbb. cc".data) :=
  ⟨by decide, by decide, by decide,
   (chunk_windows_overlap "aaaa. bbbb. cc".data 6 2
      (by decide) (by decide) (by decide)).1 5 0,
   (chunk_windows_overlap "aaaa. bbbb. cc".data 6 2
      (by decide) (by decide) (by decide)).2 5
     ["aaaa.".data, ". bbbb".data, "bb. cc".data, "cc".data]
     (by decide) (by decide)⟩

/-- A text whose single window-overlap region is pure whitespace. -/
def strippedOverlapText : List Char := "aaaaaaaa  bb".data

/-- Counterexample to C8 as stated: with `chunk_size = 10`, `overlap = 2`
and this 12-character text, the two windows are `(0,10)` and `(8,18)`, whose
shared region `text[8:10]` is the two spaces; stripping removes it from both
returned chunks (`"aaaaaaaa"` and `"bb"`), so the shared region does NOT
survive in the returned chunk texts — the two chunks share no text at all
(the two-space string occurs in neither). -/
theorem chunk_overlap_stripped_counterexample :
    (0 : ℤ) < 2 ∧ (2 : ℤ) < 10 ∧ (10 : ℤ) < (strippedOverlapText.length : ℤ) ∧
    chunk_text strippedOverlapText 10 2 5 = some ["aaaaaaaa".data, "bb".data] ∧
    chunkOffsets strippedOverlapText 10 2 5 0 = [(0, 10), (8, 18)] ∧
    pySubstr strippedOverlapText 8 10 = "  ".data ∧
    pyRfind "aaaaaaaa".data "  ".data = -1 ∧
    pyRfind "bb".data "  ".data = -1 := by
  decide

/-! ### Stable descending sort properties (C2, C7) -/

/-- The strict order the stable descending sort establishes between any two
entries it emits in this order: either a strictly larger score, or an equal
score and a strictly smaller (hence earlier) original index. -/
def scoreOrder (a b : ℕ × ℝ) : Prop :=
  b.2 < a.2 ∨ (a.2 = b.2 ∧ a.1 < b.1)

lemma insertDesc_perm (x : ℕ × ℝ) (l : List (ℕ × ℝ)) :
    List.Perm (insertDesc x l) (x :: l) := by
  induction l with
  | nil => exact List.Perm.refl _
  | cons y ys ih =>
    unfold insertDesc
    by_cases h : y.2 < x.2
    · rw [if_pos h]
    · rw [if_neg h]
      exact (ih.cons y).trans (List.Perm.swap x y ys)

lemma mem_insertDesc {z x : ℕ × ℝ} {l : List (ℕ × ℝ)} :
    z ∈ insertDesc x l ↔ z = x ∨ z ∈ l := by
  rw [(insertDesc_perm x l).mem_iff, List.mem_cons]

lemma sortByScoreDesc_perm (l : List (ℕ × ℝ)) :
    List.Perm (sortByScoreDesc l) l := by
  suffices h : ∀ acc : List (ℕ × ℝ),
      List.Perm (l.foldl (fun acc x => insertDesc x acc) acc) (acc ++ l) by
    simpa using h []
  induction l with
  | nil => intro acc; simp
  | cons x xs ih =>
    intro acc
    simp only [List.foldl_cons]
    refine (ih (insertDesc x acc)).trans ?_
    refine (List.Perm.append_right xs ((insertDesc_perm x acc))).trans ?_
    exact (List.perm_middle).symm

lemma insertDesc_pairwise {x : ℕ × ℝ} {l : List (ℕ × ℝ)}
    (hl : l.Pairwise scoreOrder) (hidx : ∀ z ∈ l, z.1 < x.1) :
    (insertDesc x l).Pairwise scoreOrder := by
  induction l with
  | nil => simp [insertDesc]
  | cons y ys ih =>
    rw [List.pairwise_cons] at hl
    obtain ⟨hy, hys⟩ := hl
    unfold insertDesc
    by_cases h : y.2 < x.2
    · rw [if_pos h]
      rw [List.pairwise_cons]
      refine ⟨?_, List.pairwise_cons.mpr ⟨hy, hys⟩⟩
      intro w hw
      rcases List.mem_cons.mp hw with hwy | hwys
      · subst hwy; exact Or.inl h
      · rcases hy w hwys with hlt | ⟨heq, _⟩
        · exact Or.inl (hlt.trans h)
        · exact Or.inl (heq ▸ h)
    · rw [if_neg h]
      rw [List.pairwise_cons]
      constructor
      · intro w hw
        rcases mem_insertDesc.mp hw with hwx | hwys
        · subst hwx
          rcases lt_or_eq_of_le (not_lt.mp h) with hlt | heq
          · exact Or.inl hlt
          · exact Or.inr ⟨heq.symm, hidx y (List.mem_cons_self y ys)⟩
        · exact hy w hwys
      · exact ih hys (fun z hz => hidx z (List.mem_cons_of_mem y hz))

lemma sortByScoreDesc_pairwise (l : List (ℕ × ℝ))
    (hl : l.Pairwise (fun a b : ℕ × ℝ => a.1 < b.1)) :
    (sortByScoreDesc l).Pairwise scoreOrder := by
  suffices h : ∀ l' : List (ℕ × ℝ), l'.Pairwise (fun a b : ℕ × ℝ => a.1 < b.1) →
      ∀ acc : List (ℕ × ℝ), acc.Pairwise scoreOrder →
      (∀ z ∈ acc, ∀ x ∈ l', z.1 < x.1) →
      (l'.foldl (fun acc x => insertDesc x acc) acc).Pairwise scoreOrder by
    exact h l hl [] (by simp) (by simp)
  intro l'
  induction l' with
  | nil => intro _ acc hacc _; simpa using hacc
  | cons x xs ih =>
    intro hp acc hacc hidx
    rw [List.pairwise_cons] at hp
    obtain ⟨hx, hxs⟩ := hp
    simp only [List.foldl_cons]
    apply ih hxs
    · exact insertDesc_pairwise hacc (fun z hz => hidx z hz x (List.mem_cons_self x xs))
    · intro z hz w hw
      rcases mem_insertDesc.mp hz with hzx | hza
      · subst hzx
        exact hx w hw
      · exact hidx z hza w (List.mem_cons_of_mem x hw)

lemma enumFrom_fst_le (l : List α) :
    ∀ (i : ℕ), ∀ p ∈ enumFrom i l, i ≤ p.1 := by
  induction l with
  | nil => intro i p hp; simp [enumFrom] at hp
  | cons x xs ih =>
    intro i p hp
    rcases List.mem_cons.mp hp with h | h
    · subst h; exact le_refl i
    · exact le_of_lt (Nat.lt_of_succ_le (ih (i + 1) p h))

lemma enumFrom_pairwise (l : List α) :
    ∀ i : ℕ, (enumFrom i l).Pairwise (fun a b : ℕ × α => a.1 < b.1) := by
  induction l with
  | nil => intro i; simp [enumFrom]
  | cons x xs ih =>
    intro i
    rw [enumFrom, List.pairwise_cons]
    exact ⟨fun p hp => Nat.lt_of_succ_le (enumFrom_fst_le xs (i + 1) p hp), ih (i + 1)⟩

lemma enumFrom_length (l : List α) : ∀ i : ℕ, (enumFrom i l).length = l.length := by
  induction l with
  | nil => intro i; rfl
  | cons x xs ih => intro i; simp [enumFrom, ih]

lemma similarities_length (q : List ℚ) (cands : List (List ℚ)) :
    (similarities q cands).length = cands.length := by
  unfold similarities
  rw [enumFrom_length, List.length_map]

/-- Claim C2: for every query vector, candidate sequence and `top_k >= 0`,
the ranking core returns exactly `min top_k (number of candidates)` scored
candidates, sorted non-increasing by similarity score, and entries with
equal scores keep their original input relative order (their original
indices appear in increasing order): Python sort with a key and
`reverse=True` is stable. -/
theorem retrieve_ranked_stable (q : List ℚ) (cands : List (List ℚ))
    (top_k : ℤ) (hk : 0 ≤ top_k) :
    (rankCandidates q cands top_k).length = min top_k.toNat cands.length ∧
    (rankCandidates q cands top_k).Pairwise (fun a b : ℕ × ℝ => b.2 ≤ a.2) ∧
    (rankCandidates q cands top_k).Pairwise
      (fun a b : ℕ × ℝ => a.2 = b.2 → a.1 < b.1) := by
  have hslice : rankCandidates q cands top_k =
      (sortByScoreDesc (similarities q cands)).take top_k.toNat := by
    unfold rankCandidates pySliceTo
    rw [if_pos hk]
  have hpw : (sortByScoreDesc (similarities q cands)).Pairwise scoreOrder :=
    sortByScoreDesc_pairwise _ (by unfold similarities; exact enumFrom_pairwise _ 0)
  have htake : (rankCandidates q cands top_k).Pairwise scoreOrder := by
    rw [hslice]
    exact hpw.sublist (List.take_sublist _ _)
  refine ⟨?_, ?_, ?_⟩
  · rw [hslice, List.length_take,
      (sortByScoreDesc_perm (similarities q cands)).length_eq,
      similarities_length]
  · refine htake.imp ?_
    intro a b hab
    rcases hab with h | ⟨h, _⟩
    · exact le_of_lt h
    · exact le_of_eq h.symm
  · refine htake.imp ?_
    intro a b hab heq
    rcases hab with h | ⟨_, h⟩
    · rw [heq] at h
      exact absurd h (lt_irrefl _)
    · exact h

/-- Witness for C2 at a concrete query, two candidates and `top_k = 2`. -/
theorem retrieve_ranked_stable_witness :
    (0 : ℤ) ≤ 2 ∧
    ((rankCandidates [(1 : ℚ)] [[(0 : ℚ)], [(0 : ℚ)]] 2).length =
        min (2 : ℤ).toNat 2 ∧
      (rankCandidates [(1 : ℚ)] [[(0 : ℚ)], [(0 : ℚ)]] 2).Pairwise
        (fun a b : ℕ × ℝ => b.2 ≤ a.2) ∧
      (rankCandidates [(1 : ℚ)] [[(0 : ℚ)], [(0 : ℚ)]] 2).Pairwise
        (fun a b : ℕ × ℝ => a.2 = b.2 → a.1 < b.1)) :=
  ⟨by decide, retrieve_ranked_stable [(1 : ℚ)] [[(0 : ℚ)], [(0 : ℚ)]] 2 (by decide)⟩

/-- Claim C7 (amended): `top_k = 0` returns the empty sequence, empty
candidates return the empty sequence, and `top_k` at least the candidate
count returns the full ranked sequence — none of these raises (the function
is total).  For negative `top_k` the Python slice `similarities[:top_k]`
instead drops the last `min(-top_k, n)` ranked entries, so `top_k < 0` does
NOT in general return the empty sequence. -/
theorem retrieve_topk_boundaries (q : List ℚ) (cands : List (List ℚ))
    (top_k : ℤ) :
    (top_k = 0 → rankCandidates q cands top_k = []) ∧
    (cands = [] → rankCandidates q cands top_k = []) ∧
    ((cands.length : ℤ) ≤ top_k → rankCandidates q cands top_k =
      sortByScoreDesc (similarities q cands)) := by
  refine ⟨?_, ?_, ?_⟩
  · intro h
    subst h
    unfold rankCandidates pySliceTo
    rw [if_pos (le_refl 0)]
    simp
  · intro h
    subst h
    have hsim : similarities q [] = [] := rfl
    unfold rankCandidates
    rw [hsim]
    have hsort : sortByScoreDesc [] = [] := rfl
    rw [hsort]
    unfold pySliceTo
    split <;> simp
  · intro h
    have h0 : (0 : ℤ) ≤ top_k := le_trans (Int.natCast_nonneg _) h
    unfold rankCandidates pySliceTo
    rw [if_pos h0]
    apply List.take_of_length_le
    rw [(sortByScoreDesc_perm _).length_eq, similarities_length]
    omega

/-- Witness for the amended C7: the three boundary cases at concrete inputs. -/
theorem retrieve_topk_boundaries_witness :
    rankCandidates [(1 : ℚ)] [[(0 : ℚ)]] 0 = [] ∧
    rankCandidates [(1 : ℚ)] [] 5 = [] ∧
    rankCandidates [(1 : ℚ)] [[(0 : ℚ)], [(0 : ℚ)]] 3 =
      sortByScoreDesc (similarities [(1 : ℚ)] [[(0 : ℚ)], [(0 : ℚ)]]) :=
  ⟨(retrieve_topk_boundaries [(1 : ℚ)] [[(0 : ℚ)]] 0).1 rfl,
   (retrieve_topk_boundaries [(1 : ℚ)] [] 5).2.1 rfl,
   (retrieve_topk_boundaries [(1 : ℚ)] [[(0 : ℚ)], [(0 : ℚ)]] 3).2.2 (by decide)⟩

lemma cosine_query_zero_vec : cosine_similarity [(1 : ℚ)] [(0 : ℚ)] = 0 := by
  unfold cosine_similarity
  rw [if_pos (Or.inr norm_single_zero)]

/-- Counterexample to C7 as stated: with two candidates and `top_k = -1 ≤ 0`
the result is `[(0, 0)]` — one entry, not the empty sequence — because the
Python slice `similarities[:-1]` drops only the last ranked entry. -/
theorem retrieve_negative_topk_counterexample :
    (-1 : ℤ) ≤ 0 ∧
    rankCandidates [(1 : ℚ)] [[(0 : ℚ)], [(0 : ℚ)]] (-1) = [(0, 0)] := by
  refine ⟨by decide, ?_⟩
  unfold rankCandidates similarities
  simp only [List.map_cons, List.map_nil, cosine_query_zero_vec]
  have he : enumFrom 0 [(0 : ℝ), 0] = [(0, 0), (1, 0)] := rfl
  rw [he]
  have h2 : insertDesc (1, (0 : ℝ)) (insertDesc (0, (0 : ℝ)) []) =
      [(0, 0), (1, 0)] := by
    have h1 : insertDesc (0, (0 : ℝ)) [] = [(0, 0)] := rfl
    rw [h1]
    unfold insertDesc
    rw [if_neg (lt_irrefl (0 : ℝ))]
    rfl
  have hsort : sortByScoreDesc [(0, (0 : ℝ)), (1, 0)] = [(0, 0), (1, 0)] := by
    unfold sortByScoreDesc
    simp only [List.foldl_cons, List.foldl_nil]
    exact h2
  rw [hsort]
  unfold pySliceTo
  rw [if_neg (by decide)]
  rfl
